import Mathlib

/-!
Verification of `adcircpy/forcing/winds/forecast.py` (class `NHCAdvisory`).

The Python module is shallowly embedded below:

* timestamps (`datetime` at hour resolution) are modelled as `Int` hours;
* geographic coordinates and pressures that the code manipulates as Python
  floats are modelled as `ℚ` (the claims checked here do not depend on
  floating-point rounding);
* absent values (`None`) are `Option`;
* Python exceptions are the `PyErr` inductive, and fallible code returns
  `Except PyErr`;
* external numeric collaborators (the `haversine` package, `numpy.arctan2`,
  `numpy.sqrt`, `numpy.around`) are passed in as a `NumOps` record of
  functions, since they are third-party libraries, not repository code;
* the geometric test `pol.intersects(bbox_pol)` performed by `shapely` is
  abstracted as a boolean oracle on timestamps (for a fixed dataset the
  circle, and hence the test, is a function of the unique timestamp).
-/

namespace Forecast

/-- Python exception classes raised by the embedded code paths.
`zeroDivisionError` is a subclass of Python's `ArithmeticError`;
`assertionError` is what a failed `assert` raises (the module's validation
mechanism, the spec's `ValidationError`); `typeError` is raised by `int(None)`
and by comparisons against `None`; `attributeError` by reading an unset
private backing attribute; `indexError` by an out-of-range element access. -/
inductive PyErr where
  | zeroDivisionError
  | assertionError
  | attributeError
  | typeError
  | indexError
deriving DecidableEq, Repr

/-- Turn an optional value into an `Except`, raising `e` on `none`. -/
def exceptOf {α : Type} (o : Option α) (e : PyErr) : Except PyErr α :=
  match o with
  | some a => .ok a
  | none => .error e

/-- Python's `int(...)` on an exact rational: truncation toward zero. -/
def pyInt (q : ℚ) : Int :=
  q.num.tdiv (q.den : Int)

/-- Python's `%` on numbers (floored modulo). -/
def qmod (a b : ℚ) : ℚ :=
  a - b * (⌊a / b⌋ : Int)

/-- `numpy.copysign a b`: the magnitude of `a` with the sign of `b`
(`ℚ` has no negative zero, so `b = 0` takes the positive branch, as the
positive float `0.0` does). -/
def copysign (a b : ℚ) : ℚ :=
  if b < 0 then -|a| else |a|

/-- Python list/`pandas.iloc` indexing: negative indices count from the end. -/
def pyIdx (n : Nat) (i : Int) : Option Nat :=
  if 0 ≤ i then (if i < n then some i.toNat else none)
  else (if i.natAbs ≤ n then some (n - i.natAbs) else none)

/-- Element access with Python index semantics. -/
def pyGet {α : Type} (l : List α) (i : Int) : Option α :=
  (pyIdx l.length i).bind fun j => l.get? j

/-- Decimal digit character. -/
def natDigitChar (n : Nat) : Char :=
  Char.ofNat (48 + n)

/-- Fuel-driven decimal digit expansion (most significant first). -/
def natDigitsAux : Nat → Nat → List Char
  | 0, _ => []
  | fuel + 1, n =>
    if n < 10 then [natDigitChar n]
    else natDigitsAux fuel (n / 10) ++ [natDigitChar (n % 10)]

/-- Decimal digits of a natural number, as Python's `str` renders it. -/
def natDigits (n : Nat) : List Char :=
  natDigitsAux (n + 1) n

/-- Python's `str` of an integer. -/
def intStr (d : Int) : String :=
  if d < 0 then "-" ++ String.mk (natDigits d.natAbs)
  else String.mk (natDigits d.natAbs)

/-- Python's format spec `:>w`: right-justify into width `w` with spaces
(strings already at least `w` long are returned unchanged). -/
def rjust (w : Nat) (s : String) : String :=
  String.mk (List.replicate (w - s.length) ' ') ++ s

/-- `numpy.unique`: the sorted list of distinct values. -/
def uniqueSorted (l : List Int) : List Int :=
  (List.insertionSort (· ≤ ·) l).dedup

/-- One row of the advisory `DataFrame`, restricted to the columns the
verified code paths read: the timestamp, the central pressure and the
(possibly absent) background pressure. -/
structure Row where
  datetime : Int
  central_pressure : Int
  background_pressure : Option Int
deriving DecidableEq, Repr

/-- The value emitted into the fixed-width background-pressure column:
either a number or the blank string. -/
inductive BgOut where
  | blank
  | val (n : Int)
deriving DecidableEq, Repr

/-- The carried background pressure for row `i` of the windowed frame, as
`fort22` computes it (lines 263–265 of `forecast.py`): the row's own value
if present, otherwise `data_frame['background_pressure'].iloc[i − 1]`.
With pandas `iloc` semantics, for `i = 0` the index `−1` wraps to the LAST
row of the frame. -/
def carriedBg (rows : List Row) (i : Nat) (row : Row) : Option Int :=
  match row.background_pressure with
  | some v => some v
  | none => (pyGet rows ((i : Int) - 1)).bind fun r => r.background_pressure

/-- The background-pressure correction of `fort22` (lines 263–275 of
`forecast.py`), for row `i` of the windowed frame `rows`:

```
background_pressure = row['background_pressure']
if background_pressure is None:
    background_pressure = self.data_frame['background_pressure'].iloc[i - 1]
if background_pressure is not None:
    if background_pressure <= row['central_pressure'] < 1013:
        background_pressure = 1013
    elif background_pressure <= row['central_pressure'] >= 1013:
        background_pressure = int(row['central_pressure'] + 1)
    else:
        background_pressure = int(row['background_pressure'])
else:
    background_pressure = ''
```

Note the `else` branch converts `row['background_pressure']` — the row's
own raw value, not the carried one — so it raises `TypeError` when the
row's own value is `None`. -/
def correctedBackgroundPressure (rows : List Row) (i : Nat) :
    Except PyErr BgOut :=
  match rows.get? i with
  | none => .error .indexError
  | some row =>
    match carriedBg rows i row with
    | some b =>
      if b ≤ row.central_pressure ∧ row.central_pressure < 1013 then
        .ok (.val 1013)
      else if b ≤ row.central_pressure ∧ 1013 ≤ row.central_pressure then
        .ok (.val (row.central_pressure + 1))
      else
        match row.background_pressure with
        | some v => .ok (.val v)
        | none => .error .typeError
    | none => .ok .blank

/-- Truncation agrees with the integer cast. -/
theorem pyInt_intCast (n : Int) : pyInt (n : ℚ) = n := by
  simp [pyInt, Rat.num_intCast, Rat.den_intCast, Int.tdiv_one]

/-- The dataset constructed by `_df` (lines 186–243 of `forecast.py`):
the method builds `historic_data` from the provider's best-track feed,
fetches the forecast feed (`self.storm.get_forecast_realtime()`), builds a
second dictionary `forecast_data` (itself populated from the best-track
arrays again), runs the velocity annotation over both — and then executes
`self.__df = DataFrame(data=historic_data)`, so the constructed dataset
consists of the historic feed's rows only; the forecast rows are discarded. -/
def builtDataset (historic : List Row) (forecastFeed : List Row) : List Row :=
  historic

/-- C2: the code evaluated at the failing input.  With a one-fix historic
feed and a one-fix forecast feed, the constructed dataset holds only the
historic fix, and is therefore not the concatenation of the two feeds that
the claim describes. -/
theorem builtDataset_drops_forecast :
    builtDataset [⟨0, 1000, some 1013⟩] [⟨6, 990, some 1012⟩]
        = [⟨0, 1000, some 1013⟩]
      ∧ ([⟨0, 1000, some 1013⟩] : List Row)
        ≠ [⟨0, 1000, some 1013⟩] ++ [⟨6, 990, some 1012⟩] :=
  ⟨rfl, by decide⟩

/-- C1 (counterexample): the claim's own example — a dataset with one
timestamp, central pressure 1000 and absent background pressure — does not
yield 1013.  With a single row, the carry-forward reads
`iloc[0 - 1] = iloc[-1]`, i.e. the row itself, so the carried value is
still absent and the code emits a blank. -/
theorem background_pressure_singleton_blank :
    correctedBackgroundPressure [⟨0, 1000, none⟩] 0 = .ok .blank
      ∧ BgOut.blank ≠ BgOut.val 1013 :=
  ⟨rfl, by decide⟩

/-- C1 (amended): for row `i` of the windowed sequence, with `P` the row's
central pressure and `B` the carried background pressure — the row's own
value if present, otherwise the raw value of row `(i − 1)`, which for the
first row wraps around to the LAST row — the emitted value is `1013` when
`B ≤ P` and `P < 1013`, `P + 1` when `B ≤ P` and `P ≥ 1013`; when `B > P`
the code emits the row's OWN raw background pressure (truncated), raising
`TypeError` if the row's own value is absent; and when `B` is still absent
a blank is emitted. -/
theorem background_pressure_correction_amended (rows : List Row) (i : Nat)
    (row : Row) (h : rows.get? i = some row) :
    (∀ b, carriedBg rows i row = some b →
      ((b ≤ row.central_pressure →
          correctedBackgroundPressure rows i =
            .ok (.val (if row.central_pressure < 1013 then 1013
                       else row.central_pressure + 1)))
       ∧ (row.central_pressure < b →
          correctedBackgroundPressure rows i =
            match row.background_pressure with
            | some v => .ok (.val v)
            | none => .error .typeError)))
    ∧ (carriedBg rows i row = none →
        correctedBackgroundPressure rows i = .ok .blank) := by
  refine ⟨fun b hb => ⟨fun hle => ?_, fun hgt => ?_⟩, fun hb => ?_⟩
  · simp only [correctedBackgroundPressure, h, hb]
    by_cases hP : row.central_pressure < 1013
    · rw [if_pos ⟨hle, hP⟩, if_pos hP]
    · rw [if_neg (fun hc => hP hc.2), if_pos ⟨hle, not_lt.mp hP⟩, if_neg hP]
  · simp only [correctedBackgroundPressure, h, hb]
    rw [if_neg (fun hc => absurd hgt (not_lt.mpr hc.1)),
        if_neg (fun hc => absurd hgt (not_lt.mpr hc.1))]
  · simp only [correctedBackgroundPressure, h, hb]

/-- C1 (witness): the spec's Example 2 — central pressure 1020, background
pressure 1015 — encodes as 1021, obtained from the amended theorem at a
concrete input. -/
theorem background_pressure_correction_amended_witness :
    correctedBackgroundPressure [⟨0, 1020, some 1015⟩] 0 = .ok (.val 1021) := by
  have h := ((background_pressure_correction_amended
      [⟨0, 1020, some 1015⟩] 0 ⟨0, 1020, some 1015⟩ rfl).1 1015 rfl).1
      (by decide)
  rw [if_neg (by decide)] at h
  exact h

/-- Tail of `_generate_record_numbers` (lines 372–379 of `forecast.py`):
given the previous row's id `prev` and timestamp `tprev`, number the
remaining timestamps — equal timestamp keeps the id, otherwise it
increments. -/
def recordNumbersAux : Nat → Int → List Int → List Nat
  | _, _, [] => []
  | prev, tprev, tcur :: rest =>
    let cur := if tcur = tprev then prev else prev + 1
    cur :: recordNumbersAux cur tcur rest

/-- `_generate_record_numbers` (lines 372–379 of `forecast.py`): the list
starts as `[1]` and each later row appends the previous id, incremented
when the timestamp changes.  (On an empty frame the Python code still
returns `[1]`, which is why the claims below require a non-empty input.) -/
def generate_record_numbers (ts : List Int) : List Nat :=
  match ts with
  | [] => [1]
  | t0 :: rest => 1 :: recordNumbersAux 1 t0 rest

theorem recordNumbersAux_length (l : List Int) :
    ∀ prev tprev, (recordNumbersAux prev tprev l).length = l.length := by
  induction l with
  | nil => intro prev tprev; rfl
  | cons a l ih =>
    intro prev tprev
    simp only [recordNumbersAux, List.length_cons, ih]

/-- The step recurrence of the numberer, stated over the `cons`-ed output
shape that `generate_record_numbers` produces. -/
theorem recordNumbersAux_step (l : List Int) :
    ∀ (prev : Nat) (tprev : Int) (i : Nat) (ti ti' : Int) (ri : Nat),
      (tprev :: l).get? i = some ti →
      (tprev :: l).get? (i + 1) = some ti' →
      (prev :: recordNumbersAux prev tprev l).get? i = some ri →
      (prev :: recordNumbersAux prev tprev l).get? (i + 1)
        = some (if ti' = ti then ri else ri + 1) := by
  induction l with
  | nil =>
    intro prev tprev i ti ti' ri _ hti' _
    cases i <;> simp at hti'
  | cons a l ih =>
    intro prev tprev i ti ti' ri hti hti' hri
    cases i with
    | zero =>
      simp only [List.get?] at hti hti' hri
      cases hti; cases hti'; cases hri
      simp only [recordNumbersAux, List.get?]
    | succ j =>
      simp only [List.get?] at hti hti' hri ⊢
      simp only [recordNumbersAux, List.get?] at hri ⊢
      exact ih _ a j ti ti' ri hti hti' hri

theorem record_numbers_length (ts : List Int) (hne : ts ≠ []) :
    (generate_record_numbers ts).length = ts.length := by
  cases ts with
  | nil => exact absurd rfl hne
  | cons t0 rest =>
    simp only [generate_record_numbers, List.length_cons,
      recordNumbersAux_length]

theorem record_numbers_step (ts : List Int) (i : Nat) (ti ti' : Int)
    (ri : Nat) (hti : ts.get? i = some ti) (hti' : ts.get? (i + 1) = some ti')
    (hri : (generate_record_numbers ts).get? i = some ri) :
    (generate_record_numbers ts).get? (i + 1)
      = some (if ti' = ti then ri else ri + 1) := by
  cases ts with
  | nil => simp at hti
  | cons t0 rest =>
    have hgen : generate_record_numbers (t0 :: rest)
        = 1 :: recordNumbersAux 1 t0 rest := rfl
    rw [hgen] at hri ⊢
    exact recordNumbersAux_step rest 1 t0 i ti ti' ri hti hti' hri

/-- C7: on a non-empty windowed timestamp sequence, the record numberer
emits one id per row; the first id is 1; each later id repeats the previous
id exactly when the timestamp repeats and increments it otherwise; hence
consecutive ids differ by 0 or 1 (so ids are non-decreasing); and three
same-timestamp rows followed by one later row are numbered `[1,1,1,2]`. -/
theorem record_numbers_spec (ts : List Int) (hne : ts ≠ []) :
    (generate_record_numbers ts).length = ts.length
    ∧ (generate_record_numbers ts).get? 0 = some 1
    ∧ (∀ i ti ti' ri, ts.get? i = some ti → ts.get? (i + 1) = some ti' →
        (generate_record_numbers ts).get? i = some ri →
        (generate_record_numbers ts).get? (i + 1)
          = some (if ti' = ti then ri else ri + 1))
    ∧ (∀ i ri ri', (generate_record_numbers ts).get? i = some ri →
        (generate_record_numbers ts).get? (i + 1) = some ri' →
        ri ≤ ri' ∧ ri' ≤ ri + 1)
    ∧ (∀ t t' : Int, t ≠ t' →
        generate_record_numbers [t, t, t, t'] = [1, 1, 1, 2]) := by
  obtain ⟨t0, rest, rfl⟩ : ∃ t0 rest, ts = t0 :: rest := by
    cases ts with
    | nil => exact absurd rfl hne
    | cons a l => exact ⟨a, l, rfl⟩
  refine ⟨?_, rfl, ?_, ?_, ?_⟩
  · simp only [generate_record_numbers, List.length_cons,
      recordNumbersAux_length]
  · intro i ti ti' ri hti hti' hri
    exact recordNumbersAux_step rest 1 t0 i ti ti' ri hti hti' hri
  · intro i ri ri' hri hri'
    have hgen : generate_record_numbers (t0 :: rest)
        = 1 :: recordNumbersAux 1 t0 rest := rfl
    rw [hgen] at hri hri'
    have hlen : (1 :: recordNumbersAux 1 t0 rest).length
        = (t0 :: rest).length := by
      simp only [List.length_cons, recordNumbersAux_length]
    have hi1 : i + 1 < (t0 :: rest).length := by
      rw [← hlen]
      obtain ⟨h, -⟩ := List.get?_eq_some.mp hri'
      exact h
    have hi : i < (t0 :: rest).length := Nat.lt_of_succ_lt hi1
    obtain ⟨ti, hti⟩ : ∃ ti, (t0 :: rest).get? i = some ti :=
      ⟨_, List.get?_eq_get hi⟩
    obtain ⟨ti', hti'⟩ : ∃ ti', (t0 :: rest).get? (i + 1) = some ti' :=
      ⟨_, List.get?_eq_get hi1⟩
    have hstep := recordNumbersAux_step rest 1 t0 i ti ti' ri hti hti' hri
    rw [hri'] at hstep
    have heq : ri' = if ti' = ti then ri else ri + 1 :=
      Option.some.inj hstep
    by_cases hc : ti' = ti
    · rw [hc, if_pos rfl] at heq
      omega
    · rw [if_neg hc] at heq
      omega
  · intro t t' hne'
    simp only [generate_record_numbers, recordNumbersAux, eq_self_iff_true,
      if_true, if_neg (fun hc : t' = t => hne' hc.symm)]

/-- C7 (witness): the spec's Example 5 at concrete timestamps, obtained by
applying the specification theorem. -/
theorem record_numbers_spec_witness :
    generate_record_numbers [(0 : Int), 0, 0, 6] = [1, 1, 1, 2] :=
  (record_numbers_spec [0, 0, 0, 6] (by decide)).2.2.2.2 0 6 (by decide)

/-- One row of the velocity computation's input dictionary: the projected
position `merc(longitude, latitude) = (x, y)` and the timestamp.  The
Mercator projection applied by `pyproj` before the loop is an external
collaborator, so the embedded computation starts from the projected
columns. -/
structure VRow where
  x : ℚ
  y : ℚ
  t : Int
deriving DecidableEq, Repr

/-- The external numeric collaborators used by `_compute_velocity`:
the `haversine` package's distance, `numpy.rad2deg(numpy.arctan2 ..)`,
`numpy.sqrt` and `numpy.around(·, 0)`.  They are third-party numerics over
floats, passed in as total functions. -/
structure NumOps where
  dist : (ℚ × ℚ) → (ℚ × ℚ) → ℚ
  atan2deg : ℚ → ℚ → ℚ
  sqrtq : ℚ → ℚ
  around : ℚ → ℚ

/-- The body shared by both branches of `_compute_velocity`'s inner loop
(lines 406–421 of `forecast.py`), at a row `r` with neighbor `nb`, time
difference `dt`, and the coordinate differences `sx`, `sy` whose signs are
transferred onto the velocity components:

```
dx = haversine((y[idx], x[nbr]), (y[idx], x[idx]), unit='nmi')
dy = haversine((y[nbr], x[idx]), (y[idx], x[idx]), unit='nmi')
vx = numpy.copysign(dx / dt, sx)
vy = numpy.copysign(dy / dt, sy)
bearing = (360. + numpy.rad2deg(numpy.arctan2(vx, vy))) % 360
speed = numpy.sqrt(dx ** 2 + dy ** 2) / dt
direction, speed -> int(numpy.around(·, 0))
```

`dx / dt` with `dt == 0` raises `ZeroDivisionError`, a subclass of
Python's `ArithmeticError`. -/
def velPair (ops : NumOps) (r nb : VRow) (dt : Int) (sx sy : ℚ) :
    Except PyErr (Int × Int) :=
  if dt = 0 then .error .zeroDivisionError
  else
    let dx := ops.dist (r.y, nb.x) (r.y, r.x)
    let dy := ops.dist (nb.y, r.x) (r.y, r.x)
    let vx := copysign (dx / (dt : ℚ)) sx
    let vy := copysign (dy / (dt : ℚ)) sy
    .ok (pyInt (ops.around (qmod (360 + ops.atan2deg vx vy) 360)),
         pyInt (ops.around (ops.sqrtq (dx ^ 2 + dy ^ 2) / (dt : ℚ))))

/-- One iteration of `_compute_velocity`'s inner loop (lines 405–421 of
`forecast.py`) for raw row `idx` of the timestamp group with index list
`indexes`: when the row after the group's last index exists, the forward
difference to it is used; otherwise the backward difference to the row
before the group's first index (`x[indexes[0] - 1]`, which for index 0
wraps to the LAST row, per Python indexing). -/
def velRow (ops : NumOps) (rows : List VRow) (indexes : List Nat)
    (idx : Nat) : Except PyErr (Int × Int) :=
  match rows.get? idx, indexes.getLast?, indexes.head? with
  | some r, some ilast, some ifirst =>
    if ilast + 1 < rows.length then
      match pyGet rows ((ilast : Int) + 1) with
      | some nb => velPair ops r nb (nb.t - r.t) (nb.x - r.x) (nb.y - r.y)
      | none => .error .indexError
    else
      match pyGet rows ((ifirst : Int) - 1) with
      | some nb => velPair ops r nb (r.t - nb.t) (r.x - nb.x) (r.y - nb.y)
      | none => .error .indexError
  | _, _, _ => .error .indexError

/-- `numpy.where(numpy.asarray(t) == _datetime)`: the indices of the rows
carrying timestamp `d`, in row order. -/
def whereEq (ts : List Int) (d : Int) : List Nat :=
  (List.range ts.length).filter fun i => decide (ts.get? i = some d)

/-- The full `_compute_velocity` loop (lines 402–421 of `forecast.py`):
iterate the sorted unique timestamps, and within each timestamp group
append one `(direction, speed)` pair per raw row. -/
def computeVelocity (ops : NumOps) (rows : List VRow) :
    Except PyErr (List (Int × Int)) :=
  (uniqueSorted (rows.map (fun r => r.t))).foldlM
    (fun acc d =>
      (whereEq (rows.map (fun r => r.t)) d).foldlM
        (fun acc2 idx =>
          match velRow ops rows (whereEq (rows.map (fun r => r.t)) d) idx with
          | .ok v => .ok (acc2 ++ [v])
          | .error e => .error e)
        acc)
    []

theorem velRow_eq_forward (ops : NumOps) (rows : List VRow)
    (indexes : List Nat) (idx : Nat) (r nb : VRow) (ilast ifirst : Nat)
    (hr : rows.get? idx = some r) (hl : indexes.getLast? = some ilast)
    (hf : indexes.head? = some ifirst) (hlt : ilast + 1 < rows.length)
    (hnb : pyGet rows ((ilast : Int) + 1) = some nb) :
    velRow ops rows indexes idx
      = velPair ops r nb (nb.t - r.t) (nb.x - r.x) (nb.y - r.y) := by
  simp only [velRow, hr, hl, hf, if_pos hlt, hnb]

theorem velRow_eq_backward (ops : NumOps) (rows : List VRow)
    (indexes : List Nat) (idx : Nat) (r nb : VRow) (ilast ifirst : Nat)
    (hr : rows.get? idx = some r) (hl : indexes.getLast? = some ilast)
    (hf : indexes.head? = some ifirst) (hlt : ¬ ilast + 1 < rows.length)
    (hnb : pyGet rows ((ifirst : Int) - 1) = some nb) :
    velRow ops rows indexes idx
      = velPair ops r nb (r.t - nb.t) (r.x - nb.x) (r.y - nb.y) := by
  simp only [velRow, hr, hl, hf, if_neg hlt, hnb]

/-- C6: for a fix whose velocity-reference neighbor — the row after the
group's last index in the forward case, the row before the group's first
index in the backward case — has a time difference of zero hours, the
derivation fails with `ZeroDivisionError` (a subclass of Python's
`ArithmeticError`), and with a nonzero time difference it returns a
`(direction, speed)` pair. -/
theorem velocity_zero_dt_arith (ops : NumOps) (rows : List VRow)
    (indexes : List Nat) (idx : Nat) (r : VRow) (ilast ifirst : Nat)
    (hr : rows.get? idx = some r)
    (hl : indexes.getLast? = some ilast)
    (hf : indexes.head? = some ifirst) :
    (∀ nb, ilast + 1 < rows.length →
      pyGet rows ((ilast : Int) + 1) = some nb →
      ((nb.t - r.t = 0 →
          velRow ops rows indexes idx = .error .zeroDivisionError)
       ∧ (nb.t - r.t ≠ 0 → ∃ p, velRow ops rows indexes idx = .ok p)))
    ∧ (∀ nb, ¬ ilast + 1 < rows.length →
      pyGet rows ((ifirst : Int) - 1) = some nb →
      ((r.t - nb.t = 0 →
          velRow ops rows indexes idx = .error .zeroDivisionError)
       ∧ (r.t - nb.t ≠ 0 → ∃ p, velRow ops rows indexes idx = .ok p))) := by
  constructor
  · intro nb hlt hnb
    rw [velRow_eq_forward ops rows indexes idx r nb ilast ifirst hr hl hf
      hlt hnb]
    constructor
    · intro hdt
      simp only [velPair, if_pos hdt]
    · intro hdt
      exact ⟨_, by simp only [velPair, if_neg hdt]; rfl⟩
  · intro nb hlt hnb
    rw [velRow_eq_backward ops rows indexes idx r nb ilast ifirst hr hl hf
      hlt hnb]
    constructor
    · intro hdt
      simp only [velPair, if_pos hdt]
    · intro hdt
      exact ⟨_, by simp only [velPair, if_neg hdt]; rfl⟩

/-- Concrete instantiation of the external numeric collaborators, used to
evaluate the embedded pipeline at sample inputs. -/
def testOps : NumOps :=
  { dist := fun p q => |p.1 - q.1| + |p.2 - q.2|
    atan2deg := fun _ _ => 0
    sqrtq := fun q => q
    around := fun q => q }

/-- C6 (witness): a dataset whose rows all share one timestamp makes the
backward reference wrap to a same-timestamp row, so `dt = 0` and the
derivation raises `ZeroDivisionError`. -/
theorem velocity_zero_dt_arith_witness :
    velRow testOps [⟨0, 0, 0⟩] [0] 0 = .error .zeroDivisionError := by
  have h := (velocity_zero_dt_arith testOps [⟨0, 0, 0⟩] [0] 0 ⟨0, 0, 0⟩ 0 0
      rfl rfl rfl).2 ⟨0, 0, 0⟩ (by decide) rfl
  exact h.1 (by decide)

theorem sorted_get?_le (l : List Int) (hs : l.Sorted (· ≤ ·)) (a b : Nat)
    (x y : Int) (hab : a ≤ b) (hx : l.get? a = some x)
    (hy : l.get? b = some y) : x ≤ y := by
  obtain ⟨ha, hxa⟩ := List.get?_eq_some.mp hx
  obtain ⟨hb, hyb⟩ := List.get?_eq_some.mp hy
  subst hxa
  subst hyb
  exact hs.rel_get_of_le (Fin.mk_le_mk.mpr hab)

theorem record_numbers_const_of_eq (ts : List Int)
    (hs : ts.Sorted (· ≤ ·)) :
    ∀ (d i : Nat) (ti : Int), ts.get? i = some ti →
    ts.get? (i + d) = some ti →
    (generate_record_numbers ts).get? (i + d)
      = (generate_record_numbers ts).get? i := by
  intro d
  induction d with
  | zero => intro i ti h1 h2; rfl
  | succ d ih =>
    intro i ti h1 h2
    have hlen1 : i + d + 1 < ts.length := by
      obtain ⟨h, -⟩ := List.get?_eq_some.mp h2
      exact h
    have hlend : i + d < ts.length := Nat.lt_of_succ_lt hlen1
    obtain ⟨tm, hm⟩ : ∃ tm, ts.get? (i + d) = some tm :=
      ⟨_, List.get?_eq_get hlend⟩
    have hle1 : ti ≤ tm :=
      sorted_get?_le ts hs i (i + d) ti tm (Nat.le_add_right i d) h1 hm
    have hle2 : tm ≤ ti :=
      sorted_get?_le ts hs (i + d) (i + d + 1) tm ti (Nat.le_succ _) hm h2
    have htm : tm = ti := le_antisymm hle2 hle1
    have hne : ts ≠ [] := by
      intro hnil
      rw [hnil] at h1
      simp at h1
    obtain ⟨ri, hri⟩ :
        ∃ ri, (generate_record_numbers ts).get? (i + d) = some ri := by
      refine ⟨_, List.get?_eq_get ?_⟩
      rw [record_numbers_length ts hne]
      exact hlend
    have hstep := record_numbers_step ts (i + d) tm ti ri hm h2 hri
    rw [← Nat.add_assoc i d 1, hstep, if_pos htm.symm, ← hri]
    exact ih i ti h1 (htm ▸ hm)

/-- C9 (amended): rows that share an identical timestamp AND an identical
recorded position receive the same `(direction, speed)` pair from the
velocity derivation (under any choice of the external numeric
collaborators), and — on a timestamp sequence that is non-decreasing, the
dataset invariant — rows sharing a timestamp receive the same record
number.  The position hypothesis is necessary: the code derives each row's
velocity from the row's own coordinates, so same-timestamp rows with
different positions can receive different pairs. -/
theorem same_timestamp_rows_amended :
    (∀ (ops : NumOps) (rows : List VRow) (indexes : List Nat) (i j : Nat)
      (ri rj : VRow), rows.get? i = some ri → rows.get? j = some rj →
      ri = rj → velRow ops rows indexes i = velRow ops rows indexes j)
    ∧ (∀ ts : List Int, ts.Sorted (· ≤ ·) →
      ∀ (i j : Nat) (ti tj : Int), ts.get? i = some ti →
      ts.get? j = some tj → ti = tj →
      (generate_record_numbers ts).get? i
        = (generate_record_numbers ts).get? j) := by
  constructor
  · intro ops rows indexes i j ri rj hi hj hij
    subst hij
    simp only [velRow, hi, hj]
  · intro ts hs i j ti tj hi hj hij
    subst hij
    rcases Nat.le_total i j with h | h
    · obtain ⟨d, rfl⟩ := Nat.le.dest h
      exact (record_numbers_const_of_eq ts hs d i ti hi hj).symm
    · obtain ⟨d, rfl⟩ := Nat.le.dest h
      exact record_numbers_const_of_eq ts hs d j ti hj hi

/-- C9 (witness): two identical same-timestamp rows receive the same
velocity pair, and two same-timestamp rows receive the same record number,
at a concrete dataset. -/
theorem same_timestamp_rows_amended_witness :
    velRow testOps [⟨0, 0, 0⟩, ⟨0, 0, 0⟩, ⟨1, 0, 6⟩] [0, 1] 0
      = velRow testOps [⟨0, 0, 0⟩, ⟨0, 0, 0⟩, ⟨1, 0, 6⟩] [0, 1] 1
    ∧ (generate_record_numbers [0, 0, 6]).get? 0
      = (generate_record_numbers [0, 0, 6]).get? 1 :=
  ⟨same_timestamp_rows_amended.1 testOps [⟨0, 0, 0⟩, ⟨0, 0, 0⟩, ⟨1, 0, 6⟩]
      [0, 1] 0 1 ⟨0, 0, 0⟩ ⟨0, 0, 0⟩ rfl rfl rfl,
   same_timestamp_rows_amended.2 [0, 0, 6] (by decide) 0 1 0 0 rfl rfl rfl⟩

/-- Three rows whose first two share timestamp 0 but sit at different
projected positions (`x = 0` and `x = 1`). -/
def critRows : List VRow := [⟨0, 0, 0⟩, ⟨1, 0, 0⟩, ⟨1, 0, 1⟩]

theorem critRows_vel0 : velRow testOps critRows [0, 1] 0 = .ok (0, 1) := by
  rw [velRow_eq_forward testOps critRows [0, 1] 0 ⟨0, 0, 0⟩ ⟨1, 0, 1⟩ 1 0
    rfl rfl rfl (by decide) rfl]
  simp only [velPair, testOps]
  norm_num [copysign, qmod, pyInt]

theorem critRows_vel1 : velRow testOps critRows [0, 1] 1 = .ok (0, 0) := by
  rw [velRow_eq_forward testOps critRows [0, 1] 1 ⟨1, 0, 0⟩ ⟨1, 0, 1⟩ 1 0
    rfl rfl rfl (by decide) rfl]
  simp only [velPair, testOps]
  norm_num [copysign, qmod, pyInt]

theorem critRows_vel2 : velRow testOps critRows [2] 2 = .ok (0, 0) := by
  rw [velRow_eq_backward testOps critRows [2] 2 ⟨1, 0, 1⟩ ⟨1, 0, 0⟩ 2 2
    rfl rfl rfl (by decide) rfl]
  simp only [velPair, testOps]
  norm_num [copysign, qmod, pyInt]

theorem critRows_unique :
    uniqueSorted (List.map (fun r => r.t) critRows) = [0, 1] := rfl

theorem critRows_group0 :
    whereEq (List.map (fun r => r.t) critRows) 0 = [0, 1] := rfl

theorem critRows_group1 :
    whereEq (List.map (fun r => r.t) critRows) 1 = [2] := rfl

/-- C9 (counterexample): rows 0 and 1 of `critRows` share timestamp 0,
yet the velocity derivation assigns row 0 the pair `(0, 1)` and row 1 the
pair `(0, 0)` — same-timestamp rows do NOT always receive the same
`(direction, speed)`, because each row's own position enters the
computation. -/
theorem same_timestamp_velocity_counterexample :
    computeVelocity testOps critRows = .ok [(0, 1), (0, 0), (0, 0)]
    ∧ List.map (fun r => r.t) critRows = [0, 0, 1]
    ∧ ((0, 1) : Int × Int) ≠ (0, 0) := by
  refine ⟨?_, rfl, by decide⟩
  simp only [computeVelocity, critRows_unique, critRows_group0,
    critRows_group1, List.foldlM, critRows_vel0, critRows_vel1,
    critRows_vel2, List.nil_append, List.cons_append, bind, Except.bind,
    pure, Except.pure]

/-- The mutable state of an `NHCAdvisory` instance that the windowing code
touches: the loaded dataset `_df` (read-only after construction), the
private backing fields `__start_date` / `__end_date` (absent until first
assigned), and the `lru_cache` slot of the `data_frame` property
(`lru_cache(maxsize=None)` keyed on `self`, so one slot per instance,
never invalidated). -/
structure NHC where
  df : List Row
  start? : Option Int
  end? : Option Int
  cache : Option (List Row)
deriving DecidableEq, Repr

/-- The `_start_date` setter (lines 116–125 of `forecast.py`): `None`
defaults to the first timestamp, and the assignment asserts
`iloc[0] <= start_date < iloc[-1]` before writing the backing field.
The spec's public `start_date` setter lives in the base class
`WindForcing` (not under `src/`); per §7 of the spec it delegates to this
validating setter.  The `lru_cache` slot is NOT touched. -/
def set_start_date (s : NHC) (v : Option Int) : Except PyErr NHC :=
  match (s.df.map Row.datetime).head?, (s.df.map Row.datetime).getLast? with
  | some first, some last =>
    let v' := v.getD first
    if first ≤ v' ∧ v' < last then .ok { s with start? := some v' }
    else .error .assertionError
  | _, _ => .error .indexError

/-- The `_end_date` setter (lines 131–142 of `forecast.py`): `None`
defaults to the last timestamp; asserts `iloc[0] < end_date <= iloc[-1]`
and then `end_date > self.start_date` (raising `AttributeError` when the
start date was never set) before writing the backing field. -/
def set_end_date (s : NHC) (v : Option Int) : Except PyErr NHC :=
  match (s.df.map Row.datetime).head?, (s.df.map Row.datetime).getLast? with
  | some first, some last =>
    let v' := v.getD last
    if first < v' ∧ v' ≤ last then
      match s.start? with
      | some st =>
        if st < v' then .ok { s with end? := some v' }
        else .error .assertionError
      | none => .error .attributeError
    else .error .assertionError
  | _, _ => .error .indexError

/-- `_file_end_date` (lines 381–386 of `forecast.py`): the first unique
timestamp `>= end_date` (`numpy.unique` sorts), or `None` when the scan
exhausts — reading an unset end date raises `AttributeError`. -/
def file_end_date (s : NHC) : Except PyErr (Option Int) :=
  match s.end? with
  | some e =>
    .ok ((uniqueSorted (s.df.map Row.datetime)).find? fun d => decide (e ≤ d))
  | none => .error .attributeError

/-- The `data_frame` property (lines 180–184 of `forecast.py`), wrapped in
`@lru_cache(maxsize=None)`: on a hit the memoized list is returned
untouched; on a miss the windowed subset
`start_date <= datetime <= _file_end_date` is computed and stored in the
cache slot.  A `None` `_file_end_date` would make the pandas comparison
raise `TypeError`. -/
def data_frame (s : NHC) : Except PyErr (List Row) × NHC :=
  match s.cache with
  | some v => (.ok v, s)
  | none =>
    match s.start?, file_end_date s with
    | some st, .ok (some m) =>
      let v := s.df.filter fun r =>
        decide (st ≤ r.datetime) && decide (r.datetime ≤ m)
      (.ok v, { s with cache := some v })
    | some _, .ok none => (.error .typeError, s)
    | some _, .error e => (.error e, s)
    | none, _ => (.error .attributeError, s)

/-- The scan loop of `clip_to_bbox` (lines 38–63 of `forecast.py`) over
the sorted unique timestamps, with the geometric test
`pol.intersects(bbox_pol)` supplied as the oracle `inter`.  In the entry
phase (`_switch == True`) a non-intersecting timestamp is skipped, and the
first intersecting one is assigned to `start_date` before switching phase
(with `continue`, so it is not retested for exit).  In the exit phase an
intersecting timestamp is skipped, and the first non-intersecting one is
assigned to `end_date` followed by `break`. -/
def clipLoop (inter : Int → Bool) : List Int → Bool → NHC → Except PyErr NHC
  | [], _, s => .ok s
  | d :: rest, swtch, s =>
    if swtch then
      if inter d then
        match set_start_date s (some d) with
        | .ok s' => clipLoop inter rest false s'
        | .error e => .error e
      else clipLoop inter rest true s
    else
      if inter d then clipLoop inter rest false s
      else set_end_date s (some d)

/-- `clip_to_bbox` (lines 26–63 of `forecast.py`): run the two-phase scan
over `numpy.unique(self._df['datetime'])`. -/
def clip_to_bbox (inter : Int → Bool) (s : NHC) : Except PyErr NHC :=
  clipLoop inter (uniqueSorted (s.df.map Row.datetime)) true s

/-- C8: setting a window bound validates it eagerly against the dataset
span, at the point of assignment: a start date is accepted exactly when
`first <= v < last` (so in particular assigning the dataset's last
timestamp fails with the assertion error that realizes the spec's
`ValidationError`), and an end date is accepted exactly when
`first < v <= last` and `v > start_date`. -/
theorem window_bounds_validation (s : NHC) (first last : Int)
    (hf : (s.df.map Row.datetime).head? = some first)
    (hl : (s.df.map Row.datetime).getLast? = some last) :
    (∀ v : Int, set_start_date s (some v) = .ok { s with start? := some v }
        ↔ first ≤ v ∧ v < last)
    ∧ (∀ v : Int, ¬(first ≤ v ∧ v < last) →
        set_start_date s (some v) = .error .assertionError)
    ∧ set_start_date s (some last) = .error .assertionError
    ∧ (∀ v st : Int, s.start? = some st →
        (set_end_date s (some v) = .ok { s with end? := some v }
          ↔ first < v ∧ v ≤ last ∧ st < v))
    ∧ (∀ v st : Int, s.start? = some st →
        ¬(first < v ∧ v ≤ last ∧ st < v) →
        set_end_date s (some v) = .error .assertionError) := by
  have hstart_ok : ∀ v : Int, first ≤ v ∧ v < last →
      set_start_date s (some v) = .ok { s with start? := some v } := by
    intro v hv
    simp only [set_start_date, hf, hl, Option.getD_some, if_pos hv]
  have hstart_err : ∀ v : Int, ¬(first ≤ v ∧ v < last) →
      set_start_date s (some v) = .error .assertionError := by
    intro v hv
    simp only [set_start_date, hf, hl, Option.getD_some, if_neg hv]
  have hend_ok : ∀ v st : Int, s.start? = some st →
      first < v ∧ v ≤ last ∧ st < v →
      set_end_date s (some v) = .ok { s with end? := some v } := by
    intro v st hst hv
    simp only [set_end_date, hf, hl, Option.getD_some,
      if_pos (And.intro hv.1 hv.2.1), hst, if_pos hv.2.2]
  have hend_err : ∀ v st : Int, s.start? = some st →
      ¬(first < v ∧ v ≤ last ∧ st < v) →
      set_end_date s (some v) = .error .assertionError := by
    intro v st hst hv
    by_cases h1 : first < v ∧ v ≤ last
    · have h2 : ¬ st < v := fun hc => hv ⟨h1.1, h1.2, hc⟩
      simp only [set_end_date, hf, hl, Option.getD_some, if_pos h1, hst,
        if_neg h2]
    · simp only [set_end_date, hf, hl, Option.getD_some, if_neg h1]
  refine ⟨fun v => ⟨fun h => ?_, hstart_ok v⟩, hstart_err, ?_,
    fun v st hst => ⟨fun h => ?_, hend_ok v st hst⟩, hend_err⟩
  · by_contra hc
    rw [hstart_err v hc] at h
    exact Except.noConfusion h
  · exact hstart_err last fun hc => absurd hc.2 (lt_irrefl last)
  · by_contra hc
    rw [hend_err v st hst hc] at h
    exact Except.noConfusion h

/-- C8 (witness): the spec's Example 4 — with dataset timestamps `[0, 6]`,
assigning `start_date = 6` (the last timestamp) fails eagerly. -/
theorem window_bounds_validation_witness :
    set_start_date ⟨[⟨0, 1000, none⟩, ⟨6, 1000, none⟩], none, none, none⟩
        (some 6) = .error .assertionError :=
  (window_bounds_validation
    ⟨[⟨0, 1000, none⟩, ⟨6, 1000, none⟩], none, none, none⟩ 0 6 rfl rfl).2.2.1

/-- C3 (amended): the `data_frame` view is computed as the subset
`start_date <= t <= m` (with `m` the first unique timestamp `>= end_date`)
only on a cache miss, and the result is memoized in the per-instance
`lru_cache` slot; on a hit the memoized list is returned unchanged, and
neither bound setter touches the cache slot — so after a bound change the
view is NOT recomputed. -/
theorem windowed_view_amended (s : NHC) :
    (∀ v, s.cache = some v → data_frame s = (.ok v, s))
    ∧ (∀ st m, s.cache = none → s.start? = some st →
        file_end_date s = .ok (some m) →
        data_frame s =
          (.ok (s.df.filter fun r =>
              decide (st ≤ r.datetime) && decide (r.datetime ≤ m)),
           { s with cache := some (s.df.filter fun r =>
              decide (st ≤ r.datetime) && decide (r.datetime ≤ m)) }))
    ∧ (∀ v s', set_start_date s v = .ok s' → s'.cache = s.cache)
    ∧ (∀ v s', set_end_date s v = .ok s' → s'.cache = s.cache) := by
  refine ⟨fun v hv => ?_, fun st m hc hst hm => ?_, fun v s' h => ?_,
    fun v s' h => ?_⟩
  · simp only [data_frame, hv]
  · simp only [data_frame, hc, hst, hm]
  · simp only [set_start_date] at h
    split at h
    · split at h
      · cases h
        rfl
      · exact Except.noConfusion h
    · exact Except.noConfusion h
  · simp only [set_end_date] at h
    split at h
    · split at h
      · split at h
        · split at h
          · cases h
            rfl
          · exact Except.noConfusion h
        · exact Except.noConfusion h
      · exact Except.noConfusion h
    · exact Except.noConfusion h

/-- Dataset with three unique timestamps, used to exercise the windowing
cache. -/
def memoDF : List Row :=
  [⟨0, 1000, none⟩, ⟨6, 1000, none⟩, ⟨12, 1000, none⟩]

/-- C3 (witness): on a cache hit the memoized view is returned unchanged,
applied at a concrete cached state. -/
theorem windowed_view_amended_witness :
    data_frame ⟨memoDF, some 6, some 12, some memoDF⟩
      = (.ok memoDF, ⟨memoDF, some 6, some 12, some memoDF⟩) :=
  (windowed_view_amended ⟨memoDF, some 6, some 12, some memoDF⟩).1
    memoDF rfl

/-- C3 (counterexample): starting from bounds `[0, 12]`, a first access
computes and caches the full view; a later (validated, successful) change
of `start_date` to 6 leaves the cache in place, and the next access
returns the stale full view — which is NOT the subset
`6 <= t <= 12` that the claim requires after the bound change. -/
theorem windowed_view_memoized_counterexample :
    set_start_date (data_frame ⟨memoDF, some 0, some 12, none⟩).2 (some 6)
        = .ok ⟨memoDF, some 6, some 12, some memoDF⟩
    ∧ (data_frame ⟨memoDF, some 6, some 12, some memoDF⟩).1 = .ok memoDF
    ∧ memoDF.filter (fun r => decide ((6 : Int) ≤ r.datetime)
        && decide (r.datetime ≤ 12)) ≠ memoDF :=
  ⟨rfl, rfl, by decide⟩

theorem uniqueSorted_sorted_lt (l : List Int) :
    (uniqueSorted l).Sorted (· < ·) := by
  have h1 : (List.insertionSort (· ≤ ·) l).Sorted (· ≤ ·) :=
    List.sorted_insertionSort (· ≤ ·) l
  have h2 : (uniqueSorted l).Sorted (· ≤ ·) :=
    List.Pairwise.sublist (List.dedup_sublist _) h1
  exact h2.lt_of_le (List.nodup_dedup _)

theorem mem_uniqueSorted (a : Int) (l : List Int) :
    a ∈ uniqueSorted l ↔ a ∈ l := by
  rw [uniqueSorted, List.mem_dedup]
  exact (List.perm_insertionSort (· ≤ ·) l).mem_iff

theorem sorted_head?_le (l : List Int) (hs : l.Sorted (· ≤ ·)) (f x : Int)
    (hh : l.head? = some f) (hx : x ∈ l) : f ≤ x := by
  cases l with
  | nil => cases hx
  | cons y t =>
    have hy : f = y := by
      simp only [List.head?_cons] at hh
      exact (Option.some.inj hh).symm
    subst hy
    rcases List.mem_cons.mp hx with rfl | hx'
    · exact le_refl x
    · exact (List.sorted_cons.mp hs).1 x hx'

theorem sorted_le_getLast? :
    ∀ l : List Int, l.Sorted (· ≤ ·) → ∀ g x : Int,
    l.getLast? = some g → x ∈ l → x ≤ g := by
  intro l
  induction l with
  | nil => intro _ g x _ hx; cases hx
  | cons y t ih =>
    intro hs g x hg hx
    cases t with
    | nil =>
      have hx' : x = y := List.mem_singleton.mp hx
      have hg' : y = g := by simpa using hg
      rw [hx', hg']
    | cons z t' =>
      rw [List.getLast?_cons_cons] at hg
      rcases List.mem_cons.mp hx with rfl | hx'
      · exact (List.sorted_cons.mp hs).1 g (List.mem_of_getLast?_eq_some hg)
      · exact ih (List.sorted_cons.mp hs).2 g x hg hx'

theorem clipLoop_skip (inter : Int → Bool) :
    ∀ pre : List Int, (∀ d ∈ pre, inter d = false) →
    ∀ (l : List Int) (s : NHC),
    clipLoop inter (pre ++ l) true s = clipLoop inter l true s := by
  intro pre
  induction pre with
  | nil => intro _ l s; rfl
  | cons a t ih =>
    intro hpre l s
    have ha : inter a = false := hpre a (List.mem_cons_self a t)
    rw [List.cons_append]
    show clipLoop inter (a :: (t ++ l)) true s = _
    simp only [clipLoop, ha]
    simp only [if_true, Bool.false_eq_true, if_false]
    exact ih (fun d hd => hpre d (List.mem_cons_of_mem a hd)) l s

theorem clipLoop_exit_finds (inter : Int → Bool) :
    ∀ (l : List Int) (b : Int), l.find? (fun d => !(inter d)) = some b →
    ∀ s : NHC, clipLoop inter l false s = set_end_date s (some b) := by
  intro l
  induction l with
  | nil => intro b hb s; simp at hb
  | cons a t ih =>
    intro b hb s
    by_cases ha : inter a = true
    · rw [List.find?_cons_of_neg t (by simp [ha])] at hb
      simp only [clipLoop, ha]
      simp only [Bool.false_eq_true, if_false, if_true]
      exact ih b hb s
    · have ha' : inter a = false := by
        revert ha; cases inter a <;> simp
      rw [List.find?_cons_of_pos t (by simp [ha'])] at hb
      have hb' : a = b := Option.some.inj hb
      subst hb'
      simp only [clipLoop, ha']
      simp only [Bool.false_eq_true, if_false]

theorem clipLoop_exit_all (inter : Int → Bool) :
    ∀ l : List Int, (∀ d ∈ l, inter d = true) →
    ∀ s : NHC, clipLoop inter l false s = .ok s := by
  intro l
  induction l with
  | nil => intro _ s; rfl
  | cons a t ih =>
    intro hall s
    have ha : inter a = true := hall a (List.mem_cons_self a t)
    simp only [clipLoop, ha]
    simp only [Bool.false_eq_true, if_false, if_true]
    exact ih (fun d hd => hall d (List.mem_cons_of_mem a hd)) s

/-- C4: whenever the region scan resolves both bounds — the sorted unique
timestamps split as `pre ++ a :: rest` with nothing in `pre` intersecting,
`a` intersecting (so `a` is the first intersecting timestamp), and `b` the
first non-intersecting timestamp among those after `a` — the clip
operation succeeds and sets `start_date := a` and `end_date := b`, leaving
the dataset and the view cache untouched.  The exit search starts in
`rest`, so the entry timestamp `a` is not retested for exit. -/
theorem clip_scan_resolves (inter : Int → Bool) (s : NHC) (a b : Int)
    (pre rest : List Int)
    (hsorted : (s.df.map Row.datetime).Sorted (· ≤ ·))
    (hsplit : uniqueSorted (s.df.map Row.datetime) = pre ++ a :: rest)
    (hpre : ∀ d ∈ pre, inter d = false)
    (ha : inter a = true)
    (hfind : rest.find? (fun d => !(inter d)) = some b) :
    clip_to_bbox inter s
      = .ok { s with start? := some a, end? := some b } := by
  have hmema : a ∈ uniqueSorted (s.df.map Row.datetime) := by
    rw [hsplit]
    exact List.mem_append_right pre (List.mem_cons_self a rest)
  have hmemb_rest : b ∈ rest := List.mem_of_find?_eq_some hfind
  have hmemb : b ∈ uniqueSorted (s.df.map Row.datetime) := by
    rw [hsplit]
    exact List.mem_append_right pre (List.mem_cons_of_mem a hmemb_rest)
  have hsortedU := uniqueSorted_sorted_lt (s.df.map Row.datetime)
  rw [hsplit] at hsortedU
  have hab : a < b :=
    (List.pairwise_cons.mp (List.pairwise_append.mp hsortedU).2.1).1
      b hmemb_rest
  have hamem : a ∈ s.df.map Row.datetime := (mem_uniqueSorted a _).mp hmema
  have hbmem : b ∈ s.df.map Row.datetime := (mem_uniqueSorted b _).mp hmemb
  obtain ⟨first, hfirst⟩ : ∃ f, (s.df.map Row.datetime).head? = some f := by
    cases hd : s.df.map Row.datetime with
    | nil => rw [hd] at hamem; cases hamem
    | cons y t => exact ⟨y, rfl⟩
  obtain ⟨last, hlast⟩ :
      ∃ g, (s.df.map Row.datetime).getLast? = some g := by
    cases hd : s.df.map Row.datetime with
    | nil => rw [hd] at hamem; cases hamem
    | cons y t =>
      exact ⟨(y :: t).getLast (List.cons_ne_nil y t),
        List.getLast?_eq_getLast (y :: t) (List.cons_ne_nil y t)⟩
  have hfa : first ≤ a := sorted_head?_le _ hsorted first a hfirst hamem
  have hbl : b ≤ last := sorted_le_getLast? _ hsorted last b hlast hbmem
  have hal : a < last := lt_of_lt_of_le hab hbl
  have hset : set_start_date s (some a)
      = .ok { s with start? := some a } := by
    simp only [set_start_date, hfirst, hlast, Option.getD_some,
      if_pos (And.intro hfa hal)]
  have hsetend : set_end_date { s with start? := some a } (some b)
      = .ok { s with start? := some a, end? := some b } := by
    simp only [set_end_date, hfirst, hlast, Option.getD_some,
      if_pos (And.intro (lt_of_le_of_lt hfa hab) hbl), if_pos hab]
  rw [clip_to_bbox, hsplit,
    clipLoop_skip inter pre hpre (a :: rest) s]
  simp only [clipLoop, ha, if_true, hset]
  rw [clipLoop_exit_finds inter rest b hfind { s with start? := some a },
    hsetend]

/-- Dataset with four unique timestamps, used to exercise the region
scan. -/
def clipDF : List Row :=
  [⟨0, 1000, none⟩, ⟨6, 1000, none⟩, ⟨12, 1000, none⟩, ⟨18, 1000, none⟩]

/-- C4 (witness): with timestamps `[0, 6, 12, 18]` and a region the storm
occupies only at timestamp 6, the scan resolves `start_date = 6` and
`end_date = 12`. -/
theorem clip_scan_resolves_witness :
    clip_to_bbox (fun d => decide (d = 6)) ⟨clipDF, none, none, none⟩
      = .ok ⟨clipDF, some 6, some 12, none⟩ :=
  clip_scan_resolves (fun d => decide (d = 6)) ⟨clipDF, none, none, none⟩
    6 12 [0] [12, 18] (by decide) rfl (by decide) (by decide) (by decide)

/-- C10 (amended): when, after the first intersecting timestamp `a`, every
remaining unique timestamp intersects the region (the storm never leaves),
and `a` is strictly before the dataset's last timestamp (so the eager
start-date validation passes), the clip operation terminates normally,
writes only `start_date := a`, and leaves `end_date` (and everything else)
at its prior value. -/
theorem clip_never_leaves_amended (inter : Int → Bool) (s : NHC)
    (a last : Int) (pre rest : List Int)
    (hsorted : (s.df.map Row.datetime).Sorted (· ≤ ·))
    (hsplit : uniqueSorted (s.df.map Row.datetime) = pre ++ a :: rest)
    (hpre : ∀ d ∈ pre, inter d = false)
    (ha : inter a = true)
    (hrest : ∀ d ∈ rest, inter d = true)
    (hlast : (s.df.map Row.datetime).getLast? = some last)
    (halt : a < last) :
    clip_to_bbox inter s = .ok { s with start? := some a } := by
  have hmema : a ∈ uniqueSorted (s.df.map Row.datetime) := by
    rw [hsplit]
    exact List.mem_append_right pre (List.mem_cons_self a rest)
  have hamem : a ∈ s.df.map Row.datetime := (mem_uniqueSorted a _).mp hmema
  obtain ⟨first, hfirst⟩ : ∃ f, (s.df.map Row.datetime).head? = some f := by
    cases hd : s.df.map Row.datetime with
    | nil => rw [hd] at hamem; cases hamem
    | cons y t => exact ⟨y, rfl⟩
  have hfa : first ≤ a := sorted_head?_le _ hsorted first a hfirst hamem
  have hset : set_start_date s (some a)
      = .ok { s with start? := some a } := by
    simp only [set_start_date, hfirst, hlast, Option.getD_some,
      if_pos (And.intro hfa halt)]
  rw [clip_to_bbox, hsplit,
    clipLoop_skip inter pre hpre (a :: rest) s]
  simp only [clipLoop, ha, if_true, hset]
  exact clipLoop_exit_all inter rest hrest { s with start? := some a }

/-- C10 (witness): with timestamps `[0, 6, 12, 18]`, a region entered at
timestamp 6 and never left, and a pre-existing `end_date = 18`, the clip
operation returns normally having set only `start_date := 6`; `end_date`
keeps its prior value. -/
theorem clip_never_leaves_amended_witness :
    clip_to_bbox (fun d => decide (6 ≤ d)) ⟨clipDF, none, some 18, none⟩
      = .ok ⟨clipDF, some 6, some 18, none⟩ :=
  clip_never_leaves_amended (fun d => decide (6 ≤ d))
    ⟨clipDF, none, some 18, none⟩ 6 18 [0] [12, 18] (by decide) rfl
    (by decide) (by decide) (by decide) rfl (by decide)

/-- C10 (counterexample): with timestamps `[0, 6]` and a region first
intersected at the LAST timestamp 6 (after which, vacuously, the storm
never leaves), the operation does not terminate normally: assigning
`start_date = 6` fails the eager validation `start_date < last`, so
`clip_to_bbox` raises instead of returning with only `start_date`
modified. -/
theorem clip_entry_at_last_counterexample :
    clip_to_bbox (fun d => decide (6 ≤ d))
        ⟨[⟨0, 1000, none⟩, ⟨6, 1000, none⟩], none, none, none⟩
      = .error .assertionError := rfl

/-- The longitude string built by `fort22` (lines 250–255 of
`forecast.py`): the magnitude divided by 0.1, truncated toward zero by
`int(...)`, right-justified into FIVE characters, and then suffixed with
the hemisphere letter:

```
if longitude >= 0:
    longitude = f'{int(longitude / 0.1):>5}E'
else:
    longitude = f'{int(longitude / -0.1):>5}W'
```
-/
def fort22_longitude (lon : ℚ) : String :=
  if 0 ≤ lon then rjust 5 (intStr (pyInt (lon / (1 / 10)))) ++ "E"
  else rjust 5 (intStr (pyInt (lon / (-(1 / 10))))) ++ "W"

/-- The longitude column as emitted (line 293 of `forecast.py`):
`f'{longitude:>5}'` applied to the already-built 6-character string, which
a width-5 right-justification leaves unchanged. -/
def fort22_longitude_field (lon : ℚ) : String :=
  rjust 5 (fort22_longitude lon)

/-- The latitude string built by `fort22` (lines 256–259 of
`forecast.py`): same rule with inner width FOUR and suffix `N`/`S`. -/
def fort22_latitude (lat : ℚ) : String :=
  if 0 ≤ lat then rjust 4 (intStr (pyInt (lat / (1 / 10)))) ++ "N"
  else rjust 4 (intStr (pyInt (lat / (-(1 / 10))))) ++ "S"

/-- The latitude column as emitted (line 291 of `forecast.py`). -/
def fort22_latitude_field (lat : ℚ) : String :=
  rjust 5 (fort22_latitude lat)

theorem pyInt_eq_floor_of_nonneg (q : ℚ) (h : 0 ≤ q) : pyInt q = ⌊q⌋ := by
  rw [pyInt, Int.tdiv_eq_ediv (Rat.num_nonneg.mpr h)
    (Int.natCast_nonneg q.den), Rat.floor_def]

theorem pyInt_mul_ten_bounds (p : ℚ) (c : Int) (h0 : 0 ≤ p)
    (hc : p ≤ (c : ℚ)) : 0 ≤ pyInt (p * 10) ∧ pyInt (p * 10) ≤ 10 * c := by
  have h0' : (0 : ℚ) ≤ p * 10 := by positivity
  rw [pyInt_eq_floor_of_nonneg _ h0']
  constructor
  · exact Int.floor_nonneg.mpr h0'
  · have hle : p * 10 ≤ ((10 * c : Int) : ℚ) := by push_cast; linarith
    have hff := Int.floor_le_floor hle
    rw [Int.floor_intCast] at hff
    exact hff

theorem natDigitsAux_length_le :
    ∀ k fuel n : Nat, n < fuel → n < 10 ^ k → 1 ≤ k →
    (natDigitsAux fuel n).length ≤ k := by
  intro k
  induction k with
  | zero => intro fuel n _ _ hk; omega
  | succ k ih =>
    intro fuel n hfuel hn _
    cases fuel with
    | zero => omega
    | succ fuel =>
      simp only [natDigitsAux]
      by_cases h10 : n < 10
      · rw [if_pos h10]
        simp only [List.length_singleton]
        omega
      · rw [if_neg h10]
        rw [List.length_append]
        simp only [List.length_singleton]
        have hd1 : n / 10 < fuel := by
          have hlt : n / 10 < n := Nat.div_lt_self (by omega) (by norm_num)
          omega
        have hd2 : n / 10 < 10 ^ k := by
          rw [Nat.div_lt_iff_lt_mul (by norm_num : 0 < 10)]
          calc n < 10 ^ (k + 1) := hn
            _ = 10 ^ k * 10 := by ring
        have hk1 : 1 ≤ k := by
          by_contra hk0
          have hk : k = 0 := by omega
          subst hk
          norm_num at hn
          omega
        have := ih fuel (n / 10) hd1 hd2 hk1
        omega

theorem natDigits_length_le (k n : Nat) (hn : n < 10 ^ k) (hk : 1 ≤ k) :
    (natDigits n).length ≤ k :=
  natDigitsAux_length_le k (n + 1) n (Nat.lt_succ_self n) hn hk

theorem rjust_length (w : Nat) (s : String) :
    (rjust w s).length = max w s.length := by
  rw [rjust, String.length_append, String.length_mk, List.length_replicate]
  omega

theorem intStr_length_of_nonneg (d : Int) (h : 0 ≤ d) :
    (intStr d).length = (natDigits d.natAbs).length := by
  rw [intStr, if_neg (not_lt.mpr h), String.length_mk]

theorem intStr_length_le_of_bounds (d : Int) (k : Nat) (h0 : 0 ≤ d)
    (hd : d < 10 ^ (k : Nat)) (hk : 1 ≤ k) : (intStr d).length ≤ k := by
  rw [intStr_length_of_nonneg d h0]
  apply natDigits_length_le k d.natAbs ?_ hk
  have habs : (d.natAbs : Int) = d := Int.natAbs_of_nonneg h0
  have hcast : ((10 ^ k : Nat) : Int) = (10 : Int) ^ k := by push_cast; ring
  omega

/-- C5 (counterexample): the longitude column of the encoded line occupies
6 characters, not the 5 the §4.5 table specifies — already at longitude 0
the emitted field is `"    0E"`. -/
theorem fort22_longitude_width_counterexample :
    (fort22_longitude_field 0).length = 6 ∧ (6 : Nat) ≠ 5 := by
  constructor
  · have h : (0 : ℚ) / (1 / 10) = ((0 : Int) : ℚ) := by norm_num
    have h2 : pyInt ((0 : ℚ) / (1 / 10)) = 0 := by rw [h, pyInt_intCast]
    simp only [fort22_longitude_field, fort22_longitude,
      if_pos (le_refl (0 : ℚ)), h2]
    rfl
  · decide

/-- C5 (amended): for in-range coordinates, the latitude field occupies
exactly its specified 5 characters, but the longitude field — built by
right-justifying `int(longitude / 0.1)` into width 5 and THEN appending
the hemisphere letter — occupies exactly 6 characters, one more than the
§4.5 table's width of 5. -/
theorem fort22_lat_lon_widths (lat lon : ℚ)
    (hlat1 : -90 ≤ lat) (hlat2 : lat ≤ 90)
    (hlon1 : -180 ≤ lon) (hlon2 : lon ≤ 180) :
    (fort22_latitude_field lat).length = 5
    ∧ (fort22_longitude_field lon).length = 6 := by
  have hE : ("E" : String).length = 1 := rfl
  have hW : ("W" : String).length = 1 := rfl
  have hN : ("N" : String).length = 1 := rfl
  have hS : ("S" : String).length = 1 := rfl
  constructor
  · by_cases h : 0 ≤ lat
    · have hdiv : lat / (1 / 10) = lat * 10 := by
        rw [div_eq_mul_inv]
        norm_num
      have hb := pyInt_mul_ten_bounds lat 90 h hlat2
      have hlen : (intStr (pyInt (lat * 10))).length ≤ 4 := by
        apply intStr_length_le_of_bounds _ 4 hb.1
        · have : (10 : Int) ^ (4 : Nat) = 10000 := by norm_num
          omega
        · norm_num
      simp only [fort22_latitude_field, fort22_latitude, if_pos h, hdiv]
      rw [rjust_length, String.length_append, rjust_length, hN]
      omega
    · push_neg at h
      have hdiv : lat / (-(1 / 10)) = (-lat) * 10 := by
        rw [div_eq_iff (by norm_num : (-(1 / 10) : ℚ) ≠ 0)]
        ring
      have hb := pyInt_mul_ten_bounds (-lat) 90 (by linarith)
        (by push_cast; linarith)
      have hlen : (intStr (pyInt ((-lat) * 10))).length ≤ 4 := by
        apply intStr_length_le_of_bounds _ 4 hb.1
        · have : (10 : Int) ^ (4 : Nat) = 10000 := by norm_num
          omega
        · norm_num
      simp only [fort22_latitude_field, fort22_latitude,
        if_neg (not_le.mpr h), hdiv]
      rw [rjust_length, String.length_append, rjust_length, hS]
      omega
  · by_cases h : 0 ≤ lon
    · have hdiv : lon / (1 / 10) = lon * 10 := by
        rw [div_eq_mul_inv]
        norm_num
      have hb := pyInt_mul_ten_bounds lon 180 h hlon2
      have hlen : (intStr (pyInt (lon * 10))).length ≤ 5 := by
        apply intStr_length_le_of_bounds _ 5 hb.1
        · have : (10 : Int) ^ (5 : Nat) = 100000 := by norm_num
          omega
        · norm_num
      simp only [fort22_longitude_field, fort22_longitude, if_pos h, hdiv]
      rw [rjust_length, String.length_append, rjust_length, hE]
      omega
    · push_neg at h
      have hdiv : lon / (-(1 / 10)) = (-lon) * 10 := by
        rw [div_eq_iff (by norm_num : (-(1 / 10) : ℚ) ≠ 0)]
        ring
      have hb := pyInt_mul_ten_bounds (-lon) 180 (by linarith)
        (by push_cast; linarith)
      have hlen : (intStr (pyInt ((-lon) * 10))).length ≤ 5 := by
        apply intStr_length_le_of_bounds _ 5 hb.1
        · have : (10 : Int) ^ (5 : Nat) = 100000 := by norm_num
          omega
        · norm_num
      simp only [fort22_longitude_field, fort22_longitude,
        if_neg (not_le.mpr h), hdiv]
      rw [rjust_length, String.length_append, rjust_length, hW]
      omega

/-- C5 (witness): the width theorem applied at a concrete in-range
position (30°N, 75.5°W). -/
theorem fort22_lat_lon_widths_witness :
    (fort22_latitude_field 30).length = 5
    ∧ (fort22_longitude_field (-755 / 10)).length = 6 :=
  fort22_lat_lon_widths 30 (-755 / 10) (by norm_num) (by norm_num)
    (by norm_num) (by norm_num)

end Forecast
